import Mathlib

/- Verification development for the anna IRC relay agent (src/main.rs):
   the directive parser (get_chat_instruction / ChatInstruction), the
   per-channel context store (MessageMap / ChatMessageThing), the outbound
   long-reply formatting (send_possibly_long_message), and the atomic
   temperature cell (AtomicF32).

   Embedding conventions: chat text is List Char; instants and durations are
   Int seconds (chrono DateTime / Duration at second granularity, which is the
   finest granularity any compared constant uses); the f32 sampling
   temperature is an exact rational, which agrees with f32 on the short
   decimal literals that occur in option values; external collaborators (the
   content-type probe, upload success, file-creation success, textwrap) enter
   as explicit parameters; side effects of store operations are recorded as an
   ordered effect trace. -/

namespace Anna

/-- Whitespace predicate of Rust str::trim (char::is_whitespace, restricted to
the ASCII range, which is what chat lines contain). -/
def isTrimWs (c : Char) : Bool :=
  c = ' ' || c = '\t' || c = '\n' || c = '\r' || c = '\x0b' || c = '\x0c'

/-- Rust char::is_ascii_whitespace: space, tab, newline, carriage return, form feed. -/
def isAsciiWs (c : Char) : Bool :=
  c = ' ' || c = '\t' || c = '\n' || c = '\r' || c = '\x0c'

/-- Rust str::trim_start. -/
def trimStart (s : List Char) : List Char := s.dropWhile isTrimWs

/-- Rust str::trim: drop whitespace from both ends. -/
def trimList (s : List Char) : List Char :=
  ((s.dropWhile isTrimWs).reverse.dropWhile isTrimWs).reverse

/-- Rust str::strip_prefix on character lists: the remainder when the first
argument is a prefix of the second, none otherwise. -/
def stripPref : List Char → List Char → Option (List Char)
  | [], s => some s
  | _ :: _, [] => none
  | p :: ps, c :: cs => if p = c then stripPref ps cs else none

/-- Helper for splitN: the piece before the first occurrence of sep together
with the remainder after it, or none when sep does not occur. -/
def splitOnce (sep : Char) : List Char → Option (List Char × List Char)
  | [] => none
  | c :: cs =>
    if c = sep then some ([], cs)
    else (splitOnce sep cs).map (fun p => (c :: p.1, p.2))

/-- Rust str::splitn(n, sep): at most n pieces; the final piece keeps any
remaining separators. -/
def splitN (n : Nat) (sep : Char) (s : List Char) : List (List Char) :=
  match n with
  | 0 => []
  | 1 => [s]
  | n + 2 =>
    match splitOnce sep s with
    | none => [s]
    | some (a, b) => a :: splitN (n + 1) sep b

/-- Helper for splitAny, carrying the current piece in reverse. -/
def splitAnyAux (seps : List Char) : List Char → List Char → List (List Char)
  | [], acc => [acc.reverse]
  | c :: cs, acc =>
    if c ∈ seps then acc.reverse :: splitAnyAux seps cs []
    else splitAnyAux seps cs (c :: acc)

/-- Rust str::split with a set of separator characters: unbounded split,
empty pieces retained. -/
def splitAny (seps : List Char) (s : List Char) : List (List Char) :=
  splitAnyAux seps s []

/-- Helper for splitAsciiWs, carrying the current token in reverse. -/
def splitAsciiWsAux : List Char → List Char → List (List Char)
  | [], acc => if acc.isEmpty then [] else [acc.reverse]
  | c :: cs, acc =>
    if isAsciiWs c then
      if acc.isEmpty then splitAsciiWsAux cs []
      else acc.reverse :: splitAsciiWsAux cs []
    else splitAsciiWsAux cs (c :: acc)

/-- Rust str::split_ascii_whitespace: maximal runs of non-whitespace
characters, with no empty tokens. -/
def splitAsciiWs (s : List Char) : List (List Char) := splitAsciiWsAux s []

/-- Decimal digit test. -/
def isDigitCh (c : Char) : Bool := '0' ≤ c && c ≤ '9'

/-- Numeric value of a digit string. -/
def digitsVal (ds : List Char) : Nat :=
  ds.foldl (fun n c => 10 * n + (c.toNat - ('0').toNat)) 0

/-- Unsigned part of a decimal literal: digits, digits.digits, digits., or
.digits; anything else is a parse failure. The value is the exact rational
the literal denotes, built with mkRat. -/
def parseUnsigned (s : List Char) : Option ℚ :=
  let ip := s.takeWhile isDigitCh
  let rest := s.dropWhile isDigitCh
  match rest with
  | [] => if ip.isEmpty then none else some (mkRat (Int.ofNat (digitsVal ip)) 1)
  | '.' :: frac =>
    if frac.all isDigitCh && !(ip.isEmpty && frac.isEmpty) then
      some (mkRat (Int.ofNat (digitsVal ip * 10 ^ frac.length + digitsVal frac))
        (10 ^ frac.length))
    else none
  | _ => none

/-- Rust f32 string parsing, modelled over exact rationals: an optional sign
followed by a plain decimal literal. Exponent forms, infinities and NaN are
outside the fragment exercised by chat option values and yield none; values
are exact, which coincides with f32 on the short literals involved here. -/
def parseDecimal (s : List Char) : Option ℚ :=
  match s with
  | '-' :: r => (parseUnsigned r).map Rat.neg
  | '+' :: r => parseUnsigned r
  | r => parseUnsigned r

/-- Rust f32::clamp on finite arguments: below the low bound gives the low
bound, above the high bound gives the high bound, otherwise the value itself.
Rat.blt is the strict-order test on rationals. -/
def clampQ (lo hi x : ℚ) : ℚ :=
  if Rat.blt x lo then lo else if Rat.blt hi x then hi else x

/-- Source boolify: loose true/false option values; anything else is none. -/
def boolify (s : Option (List Char)) : Option Bool :=
  match s with
  | some v =>
    if v = ("y").data ∨ v = ("yes").data ∨ v = ("true").data ∨ v = ("on").data then
      some true
    else if v = ("n").data ∨ v = ("no").data ∨ v = ("false").data ∨ v = ("off").data then
      some false
    else none
  | none => none

/-- Source ChatInstruction: the parsed directive, with message text, the
temperature override and the four flags. -/
structure ChatInstruction where
  msg : List Char
  temp : ℚ
  context : Bool
  save : Bool
  pastebin : Bool
  tts : Bool
deriving DecidableEq

/-- Source ChatInstruction::default: given message text, all options at their
baseline, temperature at the current global value. -/
def ChatInstruction.dflt (s : List Char) (curTemp : ℚ) : ChatInstruction :=
  { msg := s, temp := curTemp, context := true, save := true,
    pastebin := false, tts := false }

/-- Source ChatInstruction::update: apply one option token of the form key or
key=value; unknown keys and unparseable values are silently ignored; paste,
pastebin and tts default to true when given without a value; temp is clamped
to the interval from 0 to 2. -/
def ChatInstruction.update (inst : ChatInstruction) (cmd : List Char) : ChatInstruction :=
  let parts := splitN 2 '=' cmd
  let param := parts.headD []
  let value : Option (List Char) := parts[1]?
  if param = ("context").data then
    match boolify value with
    | some v => { inst with context := v }
    | none => inst
  else if param = ("save").data then
    match boolify value with
    | some v => { inst with save := v }
    | none => inst
  else if param = ("paste").data ∨ param = ("pastebin").data then
    { inst with pastebin := (boolify value).getD true }
  else if param = ("temp").data then
    match value with
    | some v =>
      match parseDecimal v with
      | some q => { inst with temp := clampQ (mkRat 0 1) (mkRat 2 1) q }
      | none => inst
    | none => inst
  else if param = ("tts").data then
    { inst with tts := (boolify value).getD true }
  else inst

/-- Source form-2 loop of get_chat_instruction over the whitespace-separated
tokens: apply each leading --option and return the enumerate index at which
the first token without the -- marker appeared (the Rust skipped_words
variable, which keeps its initial value 0 when every token carries the
marker). -/
def form2Scan (inst : ChatInstruction) (idx : Nat) :
    List (List Char) → ChatInstruction × Nat
  | [] => (inst, 0)
  | tok :: rest =>
    match stripPref (("--").data) tok with
    | some cmd => form2Scan (inst.update cmd) (idx + 1) rest
    | none => (inst, idx)

/-- Source get_chat_instruction: the directive parser. The process-global
TEMPERATURE.load() value is passed in as curTemp. Form 1 is the command word
followed by a slash- or colon-introduced option block; form 2 is the command
word followed by whitespace-separated --options; form 3 is an agent-address
prefix on the untrimmed line. Any other line yields none. -/
def getChatInstruction (curTemp : ℚ) (line : List Char) : Option ChatInstruction :=
  let inst0 : ChatInstruction :=
    { msg := trimList line, temp := curTemp, context := true, save := true,
      pastebin := false, tts := false }
  match stripPref (("!chat").data) (trimList line) with
  | some data =>
    if data.isEmpty then some (ChatInstruction.dflt [] curTemp)
    else if data.head? = some '/' ∨ data.head? = some ':' then
      let pieces := splitN 2 ' ' data.tail
      let cmds := pieces.headD []
      let inst1 := (splitAny [':', ',', '/'] cmds).foldl ChatInstruction.update inst0
      match pieces[1]? with
      | some rest => some { inst1 with msg := trimList rest }
      | none => some { inst1 with msg := [] }
    else
      let scan := form2Scan inst0 0 (splitAsciiWs data)
      some { scan.1 with
             msg := trimList ((splitN (scan.2 + 1) ' ' (trimList data)).getLast?.getD []) }
  | none =>
    match stripPref (("Charbot9000:").data) line with
    | some data => some { inst0 with msg := trimList data }
    | none =>
      match stripPref (("Charbot9000,").data) line with
      | some data => some { inst0 with msg := trimList data }
      | none => none

/-- Content part of a multi-part user Turn: a text segment or an image
reference (source ChatCompletionRequestMessageContentPart). -/
inductive ContentPart
  | text (s : List Char)
  | imageUrl (u : List Char)
deriving DecidableEq

/-- Test for the text constructor, as used by the get_for_api filter. -/
def ContentPart.isText : ContentPart → Bool
  | .text _ => true
  | .imageUrl _ => false

/-- Content of a user Turn: plain text or an ordered part list (source
ChatCompletionRequestUserMessageContent). -/
inductive UserContent
  | text (s : List Char)
  | parts (l : List ContentPart)
deriving DecidableEq

/-- Stored message payload, one constructor per async-openai request role;
only the fields the core inspects are carried. -/
inductive ChatMsg
  | user (content : UserContent) (name : Option (List Char))
  | system (content : List Char)
  | assistant (content : Option (List Char))
  | tool (content : List Char)
  | func (content : Option (List Char))
deriving DecidableEq

/-- Source ChatMessageThing: one stored Turn, with its insertion instant in
seconds and its payload. -/
structure ChatMessageThing where
  date : Int
  msg : ChatMsg
deriving DecidableEq

/-- Source ChatMessageThing::get_for_api: the read-time rendering of a Turn.
When the age is under one hour (3600 seconds) the payload is returned
unchanged; otherwise a multi-part user payload keeps only its text parts and
every other payload is returned unchanged. The stored Turn itself is not
touched (the source clones). -/
def ChatMessageThing.getForApi (now : Int) (t : ChatMessageThing) : ChatMsg :=
  if now - t.date < 3600 then t.msg
  else
    match t.msg with
    | .user (.parts arr) name => .user (.parts (arr.filter ContentPart.isText)) name
    | m => m

/-- Format string of the source: the sender nick in angle brackets followed by
the message. -/
def fmtSender (sender message : List Char) : List Char :=
  ('<' :: sender) ++ ('>' :: ' ' :: message)

/-- Source MessageMap::extract_image_urls. The content-type probe (an HTTP
HEAD/GET against the URL) is an external collaborator passed in as probe;
none models a failed probe, whose URL is silently omitted. With no
https-scheme token the result is one plain-text Turn; otherwise one
multi-part Turn holding the text plus an image reference for every URL whose
probed content type starts with the image media prefix. -/
def extractImageUrls (probe : List Char → Option (List Char)) (now : Int)
    (sender message : List Char) : List ChatMessageThing :=
  let urls := (splitAsciiWs message).filter (fun tok => (("https://").data).isPrefixOf tok)
  if urls.isEmpty then
    [⟨now, ChatMsg.user (UserContent.text (fmtSender sender message)) (some sender)⟩]
  else
    let content := ContentPart.text (fmtSender sender message) ::
      urls.filterMap (fun url =>
        match probe url with
        | some ct =>
          if (("image/").data).isPrefixOf ct then some (ContentPart.imageUrl url)
          else none
        | none => none)
    [⟨now, ChatMsg.user (UserContent.parts content) (some sender)⟩]

/-- Source MessageMap::trim_message_for_age_and_contextsize: pop Turns from
the front while the front Turn's age in whole hours (chrono num_hours, which
truncates toward zero, hence Int.tdiv) exceeds 48. -/
def trimForAge (now : Int) : List ChatMessageThing → List ChatMessageThing
  | [] => []
  | t :: rest =>
    if Int.tdiv (now - t.date) 3600 > 48 then trimForAge now rest
    else t :: rest

/-- Source MessageMap: the mapping from channel identifier to its ordered Turn
sequence (front oldest, back newest), modelled as an association list. -/
structure MessageMap where
  inner : List (List Char × List ChatMessageThing)
deriving DecidableEq

/-- Channel sequence of a MessageMap, empty for unknown channels. -/
def MessageMap.channelList (m : MessageMap) (channel : List Char) :
    List ChatMessageThing :=
  match m.inner.lookup channel with
  | some l => l
  | none => []

/-- Replace (or lazily create) the sequence stored for one channel. -/
def MessageMap.setChannel (m : MessageMap) (channel : List Char)
    (l : List ChatMessageThing) : MessageMap :=
  ⟨(channel, l) :: m.inner.filter (fun p => !(p.1 == channel))⟩

/-- Observable side effects of a store operation, in program order: mutex
acquire and release, the content-type network probe of one URL, and the
attempt to serialize a channel sequence to its JSON file (ok records whether
File::create succeeded; the write result is discarded either way). -/
inductive StoreEffect
  | lockAcquire
  | lockRelease
  | probeUrl (url : List Char)
  | persistAttempt (channel : List Char) (msgs : List ChatMessageThing) (ok : Bool)
deriving DecidableEq

/-- Source MessageMap::insert_usermsg: the mutex is locked first; the Turns
built by extract_image_urls are appended (probing each https URL while the
lock is held), the sequence is trimmed for age, and the channel file write is
attempted, still under the lock; the guard drops at function exit. The
function returns nothing to the caller, so no failure propagates. -/
def MessageMap.insertUsermsg (probe : List Char → Option (List Char)) (now : Int)
    (m : MessageMap) (channel sender message : List Char) (persistOk : Bool) :
    MessageMap × List StoreEffect :=
  let l := trimForAge now
    (m.channelList channel ++ extractImageUrls probe now sender message)
  let urls := (splitAsciiWs message).filter (fun tok => (("https://").data).isPrefixOf tok)
  (m.setChannel channel l,
   StoreEffect.lockAcquire ::
     (urls.map StoreEffect.probeUrl ++
      [StoreEffect.persistAttempt channel l persistOk, StoreEffect.lockRelease]))

/-- Source MessageMap::insert_selfmsg: under the lock, append the response
messages (converted to request form by reponse_msg_to_request_msg, which on
the carried fields is the identity) as Turns dated now, trim for age, and
attempt the channel file write; the guard drops at function exit. -/
def MessageMap.insertSelfmsg (now : Int) (m : MessageMap) (channel : List Char)
    (messages : List ChatMsg) (persistOk : Bool) : MessageMap × List StoreEffect :=
  let l := trimForAge now
    (m.channelList channel ++ messages.map (fun msg => ⟨now, msg⟩))
  (m.setChannel channel l,
   [StoreEffect.lockAcquire, StoreEffect.persistAttempt channel l persistOk,
    StoreEffect.lockRelease])

/-- Source MessageMap::clear_chat_message: under the lock, empty the channel
sequence when the channel is known, otherwise do nothing; there is no file
write in this operation. -/
def MessageMap.clearChatMessage (m : MessageMap) (channel : List Char) :
    MessageMap × List StoreEffect :=
  match m.inner.lookup channel with
  | some _ => (m.setChannel channel [],
      [StoreEffect.lockAcquire, StoreEffect.lockRelease])
  | none => (m, [StoreEffect.lockAcquire, StoreEffect.lockRelease])

/-- Source MessageMap::get_chat_messages: render the whole channel sequence
(all_context true) or just the newest Turn (all_context false) through
get_for_api; unknown channels give the empty list. The source takes the map
by shared reference, so the read produces no updated store. -/
def MessageMap.getChatMessages (now : Int) (m : MessageMap) (channel : List Char)
    (allContext : Bool) : List ChatMsg :=
  match m.inner.lookup channel with
  | none => []
  | some list =>
    if allContext then list.map (ChatMessageThing.getForApi now)
    else
      match list.getLast? with
      | some t => [t.getForApi now]
      | none => []

/-- Helper scanning an effect trace with the current lock state. -/
def ioUnderLockAux : Bool → List StoreEffect → Bool
  | _, [] => false
  | _, StoreEffect.lockAcquire :: rest => ioUnderLockAux true rest
  | _, StoreEffect.lockRelease :: rest => ioUnderLockAux false rest
  | held, StoreEffect.probeUrl _ :: rest => held || ioUnderLockAux held rest
  | held, StoreEffect.persistAttempt _ _ _ :: rest => held || ioUnderLockAux held rest

/-- Whether an effect trace performs blocking I/O (a network probe or the
persistence write) between a lock acquire and the matching release. -/
def ioUnderLock (tr : List StoreEffect) : Bool := ioUnderLockAux false tr

/-- Decidable check that every Turn of a list has whole-hour age at most 48. -/
def allWithin48 (now : Int) (l : List ChatMessageThing) : Bool :=
  l.all (fun t => decide (Int.tdiv (now - t.date) 3600 ≤ 48))

/-- Whether a trace contains a persistence attempt. -/
def hasPersist (tr : List StoreEffect) : Bool :=
  tr.any (fun e =>
    match e with
    | StoreEffect.persistAttempt _ _ _ => true
    | _ => false)

/-- Rust str::lines: pieces between newlines, dropping one trailing empty
piece and a trailing carriage return on each line. -/
def linesOf (s : List Char) : List (List Char) :=
  let p := splitAny ['\n'] s
  let p := if p.getLast? = some [] then p.dropLast else p
  p.map (fun l => if l.getLast? = some '\r' then l.dropLast else l)

/-- Rust char::is_ascii_control: the C0 range and DEL. -/
def isAsciiControl (c : Char) : Bool := c.toNat < 32 || c.toNat = 127

/-- Source split_long_message_for_irc: drop blank lines, wrap each remaining
line at column 400 (textwrap::wrap, an external crate, passed in as wrap),
and strip control characters that are not whitespace. -/
def splitLongMessageForIrc (wrap : List Char → List (List Char)) (msg : List Char) :
    List (List Char) :=
  (((linesOf msg).filter (fun l => !(trimList l).isEmpty)).flatMap wrap).map
    (fun l => l.filter (fun c => !isAsciiControl c || isAsciiWs c))

/-- Outgoing IRC action of send_possibly_long_message: an inline privmsg
line, the read-more link after a successful upload, or the upload-error
notice. -/
inductive SendAction
  | privmsg (l : List Char)
  | moreLink
  | moreErr
deriving DecidableEq

/-- Source send_possibly_long_message loop: the running weighted length starts
at 0; each line adds 1 plus the floor of its trimmed length over 150 (the f32
division and floor of the source are exact at these magnitudes); a line is
sent inline only while the running total stays below 8, and the first line
pushing the total to 8 or more triggers the upload fallback instead and stops
the loop. uploadOk records whether upload_content succeeded. -/
def sendLoop (uploadOk : Bool) : Int → List (List Char) → List SendAction
  | _, [] => []
  | len, l :: rest =>
    let len2 := len + 1 + Int.ofNat ((trimList l).length / 150)
    if len2 < 8 then SendAction.privmsg (trimList l) :: sendLoop uploadOk len2 rest
    else [if uploadOk then SendAction.moreLink else SendAction.moreErr]

/-- Source send_possibly_long_message: the loop applied to the wrapped lines. -/
def sendPossiblyLongMessage (wrap : List Char → List (List Char)) (uploadOk : Bool)
    (msg : List Char) : List SendAction :=
  sendLoop uploadOk 0 (splitLongMessageForIrc wrap msg)

/-- Total weighted length of a list of lines, as accumulated by the source
loop: 1 plus floor(trimmedLength / 150) per line. -/
def weightSum : List (List Char) → Int
  | [] => 0
  | l :: rest => 1 + Int.ofNat ((trimList l).length / 150) + weightSum rest

/-- Weighted line count as claim C7 words it: the sum over wrapped lines of 1
plus the ceiling of lineLength over 150. Stated from the spec sentence for
comparison with weightSum, which is what the code computes. -/
def specWeightedCount : List (List Char) → Int
  | [] => 0
  | l :: rest => 1 + Int.ofNat ((l.length + 149) / 150) + specWeightedCount rest

/-- Whether the produced actions include either upload fallback. -/
def hasFallback (acts : List SendAction) : Bool :=
  acts.any (fun a =>
    match a with
    | SendAction.privmsg _ => false
    | _ => true)

/-- Identity wrapping: textwrap::wrap returns a line unchanged whenever it
already fits in the 400-column width, so this instantiates the wrap parameter
for inputs all of whose lines are shorter than 400 columns. -/
def wrapId (l : List Char) : List (List Char) := [l]

/-- Five-line reply, each line one hundred characters, used to separate the
weighted-count formula of the spec from the one the code computes. -/
def fiveLines : List Char :=
  List.replicate 100 'a' ++ '\n' ::
    (List.replicate 100 'a' ++ '\n' ::
      (List.replicate 100 'a' ++ '\n' ::
        (List.replicate 100 'a' ++ '\n' :: List.replicate 100 'a')))

/-- Model of f32 values by their 32-bit IEEE-754 patterns: Rust to_bits and
from_bits are mutually inverse bit-level casts, so a value is identified with
its pattern. -/
structure F32 where
  bits : Fin (2 ^ 32)
deriving DecidableEq

/-- Rust f32::to_bits under the pattern model. -/
def F32.toBits (v : F32) : Fin (2 ^ 32) := v.bits

/-- Rust f32::from_bits under the pattern model. -/
def F32.fromBits (b : Fin (2 ^ 32)) : F32 := ⟨b⟩

/-- Source AtomicF32: an atomic u32 cell holding the bit pattern of an f32.
The SeqCst load/store pair on the single cell is modelled by plain state
passing, which is faithful for a store followed by a load. -/
structure AtomicF32 where
  storage : Fin (2 ^ 32)
deriving DecidableEq

/-- Source AtomicF32::store: write the bit pattern of the value. -/
def AtomicF32.store (a : AtomicF32) (value : F32) : AtomicF32 :=
  { a with storage := value.toBits }

/-- Source AtomicF32::load: read the bit pattern back as an f32. -/
def AtomicF32.load (a : AtomicF32) : F32 := F32.fromBits a.storage

/-- stripPref fails exactly when the first list is not a prefix of the second. -/
theorem stripPref_eq_none_iff (p s : List Char) : stripPref p s = none ↔ ¬ p <+: s := by
  induction p generalizing s with
  | nil => simp [stripPref]
  | cons a ps ih =>
    cases s with
    | nil => simp [stripPref]
    | cons c cs =>
      by_cases h : a = c
      · subst h
        simp [stripPref, ih, List.cons_prefix_cons]
      · simp [stripPref, h, List.cons_prefix_cons]

/-- Dropping a satisfied prefix twice is the same as dropping it once. -/
theorem dropWhile_idem (p : Char → Bool) (l : List Char) :
    (l.dropWhile p).dropWhile p = l.dropWhile p := by
  induction l with
  | nil => rfl
  | cons a t ih =>
    cases h : p a with
    | true => simp [List.dropWhile_cons, h, ih]
    | false => simp [List.dropWhile_cons, h]

/-- Head of the list left by dropWhile fails the predicate. -/
theorem dropWhile_head_false (p : Char → Bool) (l : List Char) (a : Char) (t : List Char)
    (h : l.dropWhile p = a :: t) : p a = false := by
  have hm := List.head?_dropWhile_not p l
  rw [h] at hm
  simpa using hm

/-- When dropWhile leaves a nonempty list, the last element is unchanged. -/
theorem getLast?_dropWhile_ne_nil (p : Char → Bool) (l : List Char)
    (h : l.dropWhile p ≠ []) : (l.dropWhile p).getLast? = l.getLast? := by
  induction l with
  | nil => simp [List.dropWhile] at h
  | cons a t ih =>
    cases ha : p a with
    | false => simp [List.dropWhile_cons, ha]
    | true =>
      rw [List.dropWhile_cons, if_pos (by simp [ha])] at h ⊢
      rw [ih h]
      have ht : t ≠ [] := by
        intro he
        exact h (by simp [he, List.dropWhile])
      cases t with
      | nil => exact absurd rfl ht
      | cons b u => simp [List.getLast?_cons_cons]

/-- Rust trim is the identity on a list that dropWhile fixes from both ends. -/
theorem trimList_self (s : List Char) (h1 : s.dropWhile isTrimWs = s)
    (h2 : s.reverse.dropWhile isTrimWs = s.reverse) : trimList s = s := by
  unfold trimList
  rw [h1, h2, List.reverse_reverse]

/-- Rust trim leaves no leading whitespace. -/
theorem trimList_drop (s : List Char) :
    (trimList s).dropWhile isTrimWs = trimList s := by
  cases hl : trimList s with
  | nil => simp [List.dropWhile]
  | cons a t =>
    have h1 : ((s.dropWhile isTrimWs).reverse.dropWhile isTrimWs).reverse = a :: t := hl
    have h2 : (s.dropWhile isTrimWs).reverse.dropWhile isTrimWs ≠ [] := by
      intro hnil
      rw [hnil] at h1
      simp at h1
    have h3 : ((s.dropWhile isTrimWs).reverse.dropWhile isTrimWs).getLast? = some a := by
      rw [List.getLast?_eq_head?_reverse, h1]
      rfl
    have h4 : (s.dropWhile isTrimWs).reverse.getLast? = some a := by
      rw [← getLast?_dropWhile_ne_nil isTrimWs _ h2]
      exact h3
    have h5 : (s.dropWhile isTrimWs).head? = some a := by
      rw [List.getLast?_reverse] at h4
      exact h4
    have ha : isTrimWs a = false := by
      cases hA : s.dropWhile isTrimWs with
      | nil => rw [hA] at h5; simp at h5
      | cons x xs =>
        rw [hA] at h5
        simp at h5
        subst h5
        exact dropWhile_head_false isTrimWs s _ _ hA
    rw [List.dropWhile_cons, if_neg (by simp [ha])]

/-- Rust trim leaves no trailing whitespace. -/
theorem trimList_rev_drop (s : List Char) :
    (trimList s).reverse.dropWhile isTrimWs = (trimList s).reverse := by
  unfold trimList
  rw [List.reverse_reverse]
  exact dropWhile_idem isTrimWs _

/-- Rust trim applied twice equals trim applied once. -/
theorem trimList_trimList (s : List Char) : trimList (trimList s) = trimList s :=
  trimList_self (trimList s) (trimList_drop s) (trimList_rev_drop s)

/-- C10: storing an f32 value (identified with its 32-bit pattern, which Rust
to_bits and from_bits preserve exactly) into the atomic temperature cell and
then loading yields exactly the stored value. -/
theorem C10_atomic_store_load (a : AtomicF32) (v : F32) : (a.store v).load = v := rfl

/-- C1: for any current default temperature, the line with pastebin, save=no
and temp=3 parses to a directive with temperature clamped to 2, pasteOnly
set, persist cleared, useContext and the audio flag at their defaults, and
message text with the internal run of spaces preserved verbatim. -/
theorem C1_pastebin_directive (curTemp : ℚ) :
    getChatInstruction curTemp
        (("!chat --pastebin --save=no --temp=3 hello    world").data) =
      some { msg := ("hello    world").data, temp := mkRat 2 1, context := true,
             save := false, pastebin := true, tts := false } := rfl

/-- C3 counterexample: a multi-part Turn read at age exactly one hour, an age
not exceeding one hour, for which the claim requires all parts unchanged, is
already rewritten to its text parts only. -/
theorem C3_counterexample :
    ((3600 : Int) - 0 ≤ 3600) ∧
    ChatMessageThing.getForApi 3600
        ⟨0, ChatMsg.user (UserContent.parts
              [ContentPart.text (("a").data), ContentPart.imageUrl (("u").data)])
            (some (("s").data))⟩ ≠
      ChatMsg.user (UserContent.parts
          [ContentPart.text (("a").data), ContentPart.imageUrl (("u").data)])
        (some (("s").data)) :=
  ⟨by decide, by decide⟩

/-- C3 (amended): a stored multi-part Turn read at age of one hour or more
(rather than strictly more) yields only its text parts, and read at age
strictly under one hour yields all parts unchanged; the rendering is computed
from the stored Turn without modifying it (the read takes the store by shared
reference and clones). -/
theorem C3_image_part_decay (now : Int) (t : ChatMessageThing)
    (arr : List ContentPart) (name : Option (List Char))
    (h : t.msg = ChatMsg.user (UserContent.parts arr) name) :
    (now - t.date < 3600 → t.getForApi now = t.msg) ∧
    (3600 ≤ now - t.date →
      t.getForApi now =
        ChatMsg.user (UserContent.parts (arr.filter ContentPart.isText)) name) := by
  constructor
  · intro hlt
    unfold ChatMessageThing.getForApi
    rw [if_pos hlt]
  · intro hge
    unfold ChatMessageThing.getForApi
    rw [if_neg (by omega), h]

/-- C3 witness: the decay theorem applied to a concrete half-hour-old
multi-part Turn, whose parts are returned unchanged. -/
theorem C3_image_part_decay_witness :
    ChatMessageThing.getForApi 1800
        ⟨0, ChatMsg.user (UserContent.parts [ContentPart.text (("a").data),
              ContentPart.imageUrl (("u").data)]) (some (("s").data))⟩ =
      ChatMsg.user (UserContent.parts [ContentPart.text (("a").data),
          ContentPart.imageUrl (("u").data)]) (some (("s").data)) :=
  (C3_image_part_decay 1800
      ⟨0, ChatMsg.user (UserContent.parts [ContentPart.text (("a").data),
            ContentPart.imageUrl (("u").data)]) (some (("s").data))⟩
      [ContentPart.text (("a").data), ContentPart.imageUrl (("u").data)]
      (some (("s").data)) rfl).1 (by decide)

/-- C8: reading with allContext false returns exactly the age-filtered
rendering of the most recent retained Turn, that is the last element of the
allContext read, or the empty sequence for an unknown or empty channel; with
allContext true it returns one rendered entry per retained Turn, in insertion
order. -/
theorem C8_last_or_full (now : Int) (m : MessageMap) (channel : List Char) :
    m.getChatMessages now channel false =
      (m.getChatMessages now channel true).getLast?.toList ∧
    m.getChatMessages now channel true =
      (m.channelList channel).map (ChatMessageThing.getForApi now) := by
  unfold MessageMap.getChatMessages MessageMap.channelList
  cases m.inner.lookup channel with
  | none => simp
  | some list =>
    simp only []
    constructor
    · show (match list.getLast? with
        | some t => [t.getForApi now]
        | none => []) = (list.map (ChatMessageThing.getForApi now)).getLast?.toList
      rw [List.getLast?_map]
      cases list.getLast? with
      | none => rfl
      | some t => rfl
    · rfl

/-- C9: a line whose trimmed text does not start with the command word and
whose raw text starts with neither agent-address prefix parses to no
directive rather than an error. -/
theorem C9_no_trigger_no_directive (curTemp : ℚ) (line : List Char)
    (h1 : ¬ ((("!chat").data) <+: trimList line))
    (h2 : ¬ ((("Charbot9000:").data) <+: line))
    (h3 : ¬ ((("Charbot9000,").data) <+: line)) :
    getChatInstruction curTemp line = none := by
  unfold getChatInstruction
  rw [(stripPref_eq_none_iff _ _).mpr h1]
  rw [(stripPref_eq_none_iff _ _).mpr h2]
  rw [(stripPref_eq_none_iff _ _).mpr h3]

/-- C9 witness: the plain chat line of the spec example parses to none. -/
theorem C9_no_trigger_witness :
    getChatInstruction (mkRat 1 1) (("hello world").data) = none :=
  C9_no_trigger_no_directive (mkRat 1 1) (("hello world").data)
    (by decide) (by decide) (by decide)

/-- Truncating division by 3600 is monotone on nonnegative integers. -/
theorem tdiv_3600_mono {a b : Int} (h : 0 ≤ a) (h2 : a ≤ b) :
    Int.tdiv a 3600 ≤ Int.tdiv b 3600 := by
  have ha : a = Int.ofNat a.toNat := (Int.toNat_of_nonneg h).symm
  have hb : b = Int.ofNat b.toNat := (Int.toNat_of_nonneg (le_trans h h2)).symm
  rw [ha, hb]
  show Int.ofNat (a.toNat / 3600) ≤ Int.ofNat (b.toNat / 3600)
  exact Int.ofNat_le.mpr (Nat.div_le_div_right (by omega))

/-- After the age trim, every retained Turn of a date-sorted, past-dated list
has whole-hour age at most 48. -/
theorem trimForAge_bound (now : Int) (l : List ChatMessageThing)
    (hs : l.Pairwise (fun a b => a.date ≤ b.date))
    (hle : ∀ t ∈ l, t.date ≤ now) :
    ∀ t ∈ trimForAge now l, Int.tdiv (now - t.date) 3600 ≤ 48 := by
  induction l with
  | nil => intro t ht; simp [trimForAge] at ht
  | cons h rest ih =>
    simp only [trimForAge]
    by_cases hc : Int.tdiv (now - h.date) 3600 > 48
    · rw [if_pos hc]
      exact ih hs.of_cons (fun t ht => hle t (List.mem_cons_of_mem _ ht))
    · rw [if_neg hc]
      intro t ht
      rcases List.mem_cons.mp ht with rfl | htr
      · omega
      · have h1 : h.date ≤ t.date := (List.pairwise_cons.mp hs).1 t htr
        have h2 : 0 ≤ now - t.date := by
          have := hle t (List.mem_cons_of_mem _ htr)
          omega
        have h3 : now - t.date ≤ now - h.date := by omega
        have h4 : 0 ≤ now - h.date := le_trans h2 h3
        calc Int.tdiv (now - t.date) 3600 ≤ Int.tdiv (now - h.date) 3600 :=
              tdiv_3600_mono h2 h3
          _ ≤ 48 := by omega

/-- Looking up the channel just written by setChannel yields the new list. -/
theorem channelList_setChannel (m : MessageMap) (c : List Char)
    (l : List ChatMessageThing) : (m.setChannel c l).channelList c = l := by
  unfold MessageMap.setChannel MessageMap.channelList
  simp [List.lookup]

/-- The Turns built by extract_image_urls all carry the insertion instant. -/
theorem extractImageUrls_dates (probe : List Char → Option (List Char)) (now : Int)
    (sender message : List Char) :
    ∀ t ∈ extractImageUrls probe now sender message, t.date = now := by
  intro t ht
  unfold extractImageUrls at ht
  dsimp only at ht
  split at ht <;> simp at ht <;> rw [ht]

/-- Appending Turns dated now to a date-sorted, past-dated list and trimming
leaves only Turns of whole-hour age at most 48. -/
theorem allWithin48_trim_append (now : Int) (l new : List ChatMessageThing)
    (hs : l.Pairwise (fun a b => a.date ≤ b.date))
    (hle : ∀ t ∈ l, t.date ≤ now)
    (hnew : ∀ t ∈ new, t.date = now) :
    allWithin48 now (trimForAge now (l ++ new)) = true := by
  have hs2 : (l ++ new).Pairwise (fun a b => a.date ≤ b.date) := by
    rw [List.pairwise_append]
    refine ⟨hs, ?_, ?_⟩
    · apply List.pairwise_of_forall_mem_list
      intro a ha b hb
      rw [hnew a ha, hnew b hb]
    · intro a ha b hb
      rw [hnew b hb]
      exact hle a ha
  have hle2 : ∀ t ∈ l ++ new, t.date ≤ now := by
    intro t ht
    rcases List.mem_append.mp ht with h | h
    · exact hle t h
    · rw [hnew t h]
  have hb := trimForAge_bound now (l ++ new) hs2 hle2
  rw [allWithin48, List.all_eq_true]
  intro t ht
  simpa using hb t ht

/-- C2 counterexample: inserting at 175000 seconds (over 48 and a half hours)
after a Turn dated zero retains that Turn even though its age exceeds 48
hours, because eviction compares the age in whole hours against 48. -/
theorem C2_counterexample :
    (MessageMap.insertSelfmsg 175000
        ⟨[((("c").data), [⟨0, ChatMsg.system (("old").data)⟩])]⟩
        (("c").data) [ChatMsg.assistant (some (("hi").data))] true).1.channelList
        (("c").data) =
      [⟨0, ChatMsg.system (("old").data)⟩,
       ⟨175000, ChatMsg.assistant (some (("hi").data))⟩] ∧
    (175000 : Int) - 0 > 48 * 3600 :=
  ⟨by decide, by decide⟩

/-- C2 (amended): immediately after a user-turn insert or an agent-turns
insert, the retained channel sequence contains no Turn whose age in whole
hours exceeds 48 (none aged 49 hours or more; Turns aged between 48 and 49
hours survive trimming), provided the stored sequence is in insertion order
with no Turn dated after now, as holds for every reachable store. -/
theorem C2_eviction_after_insert (probe : List Char → Option (List Char))
    (now : Int) (m : MessageMap) (channel sender message : List Char)
    (messages : List ChatMsg) (persistOk : Bool)
    (hs : (m.channelList channel).Pairwise (fun a b => a.date ≤ b.date))
    (hle : ∀ t ∈ m.channelList channel, t.date ≤ now) :
    allWithin48 now
        ((m.insertUsermsg probe now channel sender message persistOk).1.channelList
          channel) = true ∧
    allWithin48 now
        ((m.insertSelfmsg now channel messages persistOk).1.channelList channel) =
      true := by
  constructor
  · show allWithin48 now ((m.setChannel channel (trimForAge now
        (m.channelList channel ++ extractImageUrls probe now sender message))).channelList
          channel) = true
    rw [channelList_setChannel]
    exact allWithin48_trim_append now _ _ hs hle
      (extractImageUrls_dates probe now sender message)
  · show allWithin48 now ((m.setChannel channel (trimForAge now
        (m.channelList channel ++ messages.map (fun msg => ⟨now, msg⟩)))).channelList
          channel) = true
    rw [channelList_setChannel]
    apply allWithin48_trim_append now _ _ hs hle
    intro t ht
    rcases List.mem_map.mp ht with ⟨msg, _, hmsg⟩
    rw [← hmsg]

/-- C2 witness: the eviction bound evaluated after a concrete agent insert
into a one-Turn channel. -/
theorem C2_eviction_witness :
    allWithin48 10 ((MessageMap.insertSelfmsg 10
        ⟨[((("c").data), [⟨0, ChatMsg.system (("old").data)⟩])]⟩ (("c").data)
        [ChatMsg.assistant (some (("hi").data))] true).1.channelList (("c").data)) =
      true :=
  (C2_eviction_after_insert (fun _ => none) 10
      ⟨[((("c").data), [⟨0, ChatMsg.system (("old").data)⟩])]⟩ (("c").data)
      (("u").data) (("m").data) [ChatMsg.assistant (some (("hi").data))] true
      (by decide) (by decide)).2

/-- C5 counterexample: clear on a known nonempty channel mutates the store
(the sequence becomes empty) yet its effect trace contains no persistence
attempt, so this mutating operation is not serialized to the durable sink. -/
theorem C5_counterexample :
    hasPersist ((⟨[((("c").data), [⟨0, ChatMsg.system (("x").data)⟩])]⟩ :
        MessageMap).clearChatMessage (("c").data)).2 = false ∧
    ((⟨[((("c").data), [⟨0, ChatMsg.system (("x").data)⟩])]⟩ :
        MessageMap).clearChatMessage (("c").data)).1.channelList (("c").data) = [] :=
  ⟨by decide, by decide⟩

/-- C5 (amended): each insert operation attempts to serialize the full
retained channel sequence keyed by the channel identifier, and the in-memory
result never depends on whether that write succeeds, so a persistence failure
is not propagated to the caller; clear, by contrast, mutates in memory only
and makes no persistence attempt. -/
theorem C5_persist_semantics (probe : List Char → Option (List Char)) (now : Int)
    (m : MessageMap) (channel sender message : List Char)
    (messages : List ChatMsg) (ok : Bool) :
    (StoreEffect.persistAttempt channel
        ((m.insertUsermsg probe now channel sender message ok).1.channelList channel) ok
      ∈ (m.insertUsermsg probe now channel sender message ok).2) ∧
    (m.insertUsermsg probe now channel sender message ok).1 =
      (m.insertUsermsg probe now channel sender message true).1 ∧
    (StoreEffect.persistAttempt channel
        ((m.insertSelfmsg now channel messages ok).1.channelList channel) ok
      ∈ (m.insertSelfmsg now channel messages ok).2) ∧
    (m.insertSelfmsg now channel messages ok).1 =
      (m.insertSelfmsg now channel messages true).1 ∧
    hasPersist (m.clearChatMessage channel).2 = false := by
  refine ⟨?_, rfl, ?_, rfl, ?_⟩
  · rw [show (m.insertUsermsg probe now channel sender message ok).1.channelList channel =
        trimForAge now (m.channelList channel ++ extractImageUrls probe now sender message)
      from channelList_setChannel m channel _]
    simp [MessageMap.insertUsermsg]
  · rw [show (m.insertSelfmsg now channel messages ok).1.channelList channel =
        trimForAge now (m.channelList channel ++ messages.map (fun msg => ⟨now, msg⟩))
      from channelList_setChannel m channel _]
    simp [MessageMap.insertSelfmsg]
  · unfold MessageMap.clearChatMessage
    cases m.inner.lookup channel <;> rfl

/-- C6: evaluating insert_usermsg on a message carrying one image URL shows
the content-type probe and the persistence attempt both happening between the
lock acquire and its release, and insert_selfmsg likewise persisting under
the lock: the store performs blocking I/O while holding its
mutual-exclusion lock, contrary to the claim. -/
theorem C6_io_under_lock :
    ioUnderLock ((⟨[]⟩ : MessageMap).insertUsermsg
        (fun _ => some (("image/png").data)) 0 (("#c").data) (("alice").data)
        (("look https://e.com/a.png").data) true).2 = true ∧
    (StoreEffect.probeUrl (("https://e.com/a.png").data)) ∈
      ((⟨[]⟩ : MessageMap).insertUsermsg (fun _ => some (("image/png").data)) 0
        (("#c").data) (("alice").data) (("look https://e.com/a.png").data) true).2 ∧
    ioUnderLock ((⟨[]⟩ : MessageMap).insertSelfmsg 0 (("#c").data)
        [ChatMsg.assistant (some (("hi").data))] true).2 = true :=
  ⟨by decide, by decide, by decide⟩

/-- When every token carries the option marker, the form-2 loop consumes all
of them and the skipped-words counter keeps its initial value 0. -/
theorem form2Scan_all (inst : ChatInstruction) (idx : Nat) (toks : List (List Char))
    (hall : ∀ tok ∈ toks, (("--").data) <+: tok) :
    (form2Scan inst idx toks).2 = 0 := by
  induction toks generalizing inst idx with
  | nil => rfl
  | cons tok rest ih =>
    have hp := hall tok (List.mem_cons_self tok rest)
    rcases hsp : stripPref (("--").data) tok with _ | cmd
    · exact absurd hp ((stripPref_eq_none_iff _ _).mp hsp)
    · simp only [form2Scan, hsp]
      exact ih _ _ (fun x hx => hall x (List.mem_cons_of_mem _ hx))

/-- Characters of the tokens produced by the whitespace splitter come from
the input or the accumulator. -/
theorem splitAsciiWsAux_mem (s : List Char) :
    ∀ acc tok, tok ∈ splitAsciiWsAux s acc → ∀ c ∈ tok, c ∈ s ∨ c ∈ acc := by
  induction s with
  | nil =>
    intro acc tok ht c hc
    unfold splitAsciiWsAux at ht
    split at ht
    · simp at ht
    · simp at ht
      right
      rw [ht] at hc
      simpa using hc
  | cons a s ih =>
    intro acc tok ht c hc
    unfold splitAsciiWsAux at ht
    by_cases ha : isAsciiWs a = true
    · rw [if_pos ha] at ht
      by_cases hacc : acc.isEmpty = true
      · rw [if_pos hacc] at ht
        rcases ih [] tok ht c hc with h | h
        · exact Or.inl (List.mem_cons_of_mem _ h)
        · simp at h
      · rw [if_neg hacc] at ht
        rcases List.mem_cons.mp ht with rfl | ht2
        · exact Or.inr (by simpa using hc)
        · rcases ih [] tok ht2 c hc with h | h
          · exact Or.inl (List.mem_cons_of_mem _ h)
          · simp at h
    · rw [if_neg ha] at ht
      rcases ih (a :: acc) tok ht c hc with h | h
      · exact Or.inl (List.mem_cons_of_mem _ h)
      · rcases List.mem_cons.mp h with rfl | h2
        · exact Or.inl (List.mem_cons_self c s)
        · exact Or.inr h2

/-- A list whose trim is empty is all whitespace. -/
theorem trimList_eq_nil (s : List Char) (h : trimList s = []) :
    ∀ c ∈ s, isTrimWs c := by
  unfold trimList at h
  have h2 : (s.dropWhile isTrimWs).reverse.dropWhile isTrimWs = [] := by
    simpa using congrArg List.reverse h
  have h4 : ∀ c ∈ s.dropWhile isTrimWs, isTrimWs c := fun c hc =>
    List.dropWhile_eq_nil_iff.mp h2 c (List.mem_reverse.mpr hc)
  cases hA : s.dropWhile isTrimWs with
  | nil =>
    intro c hc
    have hsplit := @List.takeWhile_append_dropWhile _ isTrimWs s
    rw [hA, List.append_nil] at hsplit
    exact List.mem_takeWhile_imp (hsplit ▸ hc)
  | cons x xs =>
    exfalso
    have hx : isTrimWs x = false := dropWhile_head_false isTrimWs s x xs hA
    have hx2 : isTrimWs x = true := h4 x (by rw [hA]; exact List.mem_cons_self x xs)
    rw [hx] at hx2
    exact Bool.false_ne_true hx2

/-- C4 counterexample: a line consisting solely of option tokens; the claim
requires empty message text there, but the parser returns the option text
itself as the message. -/
theorem C4_counterexample :
    (getChatInstruction (mkRat 1 1) (("!chat --tts").data)).map ChatInstruction.msg =
      some (("--tts").data) ∧
    (("--tts").data) ≠ ([] : List Char) :=
  ⟨by decide, by decide⟩

/-- C4 (amended): in form-2 parsing, option consumption stops at the first
token without the -- marker; but when every whitespace-separated token after
the command word carries the marker, all of them are consumed as options,
skipped_words stays 0, and the message text becomes the whole trimmed
remainder (the option text itself), which is nonempty rather than empty. -/
theorem C4_all_options_message (curTemp : ℚ) (line data : List Char)
    (hdata : stripPref (("!chat").data) (trimList line) = some data)
    (hne : data.isEmpty = false)
    (hhead : data.head? ≠ some '/' ∧ data.head? ≠ some ':')
    (htoks : splitAsciiWs data ≠ [])
    (hall : ∀ tok ∈ splitAsciiWs data, (("--").data) <+: tok) :
    ∃ inst, getChatInstruction curTemp line = some inst ∧
      inst.msg = trimList data ∧ inst.msg ≠ [] := by
  have htrim : trimList data ≠ [] := by
    intro hnil
    obtain ⟨tok, htok⟩ := List.exists_mem_of_ne_nil _ htoks
    obtain ⟨r, hr⟩ := hall tok htok
    have hd : '-' ∈ tok := by rw [← hr]; simp
    have hmem : '-' ∈ data := by
      rcases splitAsciiWsAux_mem data [] tok htok '-' hd with h | h
      · exact h
      · simp at h
    have := trimList_eq_nil data hnil '-' hmem
    simp [isTrimWs] at this
  unfold getChatInstruction
  rw [hdata]
  dsimp only
  rw [if_neg (by simp [hne])]
  rw [if_neg (not_or.mpr hhead)]
  refine ⟨_, rfl, ?_, ?_⟩
  · show trimList ((splitN ((form2Scan _ 0 (splitAsciiWs data)).2 + 1) ' '
        (trimList data)).getLast?.getD []) = trimList data
    rw [form2Scan_all _ 0 _ hall]
    show trimList ((splitN 1 ' ' (trimList data)).getLast?.getD []) = trimList data
    rw [show splitN 1 ' ' (trimList data) = [trimList data] from rfl]
    show trimList (trimList data) = trimList data
    exact trimList_trimList data
  · show trimList ((splitN ((form2Scan _ 0 (splitAsciiWs data)).2 + 1) ' '
        (trimList data)).getLast?.getD []) ≠ []
    rw [form2Scan_all _ 0 _ hall]
    show trimList ((splitN 1 ' ' (trimList data)).getLast?.getD []) ≠ []
    rw [show splitN 1 ' ' (trimList data) = [trimList data] from rfl]
    show trimList (trimList data) ≠ []
    rw [trimList_trimList data]
    exact htrim

/-- C4 witness: the amended theorem applied to the all-options line. -/
theorem C4_all_options_witness :
    (getChatInstruction (mkRat 1 1) (("!chat --tts").data)).map ChatInstruction.msg =
      some (trimList ((" --tts").data)) := by
  obtain ⟨inst, h1, h2, _⟩ := C4_all_options_message (mkRat 1 1)
    (("!chat --tts").data) ((" --tts").data)
    (by decide) (by decide) (by decide) (by decide) (by decide)
  rw [h1]
  exact congrArg some h2

/-- Inline lines do not change whether a fallback appears later. -/
theorem hasFallback_cons_privmsg (l : List Char) (acts : List SendAction) :
    hasFallback (SendAction.privmsg l :: acts) = hasFallback acts := by
  simp [hasFallback]

/-- Weighted lengths are nonnegative. -/
theorem weightSum_nonneg (ls : List (List Char)) : 0 ≤ weightSum ls := by
  induction ls with
  | nil => simp [weightSum]
  | cons l rest ih =>
    simp only [weightSum]
    have h0 : (0 : Int) ≤ Int.ofNat ((trimList l).length / 150) := Int.ofNat_nonneg _
    omega

/-- Characterization of the send loop: starting below the budget, the upload
fallback appears exactly when the accumulated weight reaches 8, and while the
total stays below 8 every line is sent inline. -/
theorem sendLoop_spec (ok : Bool) (ls : List (List Char)) :
    ∀ acc : Int, acc < 8 →
      (hasFallback (sendLoop ok acc ls) = true ↔ 8 ≤ acc + weightSum ls) ∧
      (acc + weightSum ls < 8 →
        sendLoop ok acc ls = ls.map (fun l => SendAction.privmsg (trimList l))) := by
  induction ls with
  | nil =>
    intro acc hacc
    constructor
    · simp only [sendLoop, hasFallback, List.any_nil, weightSum]
      constructor
      · intro hfalse
        exact absurd hfalse (by simp)
      · intro h8
        omega
    · intro _
      simp [sendLoop]
  | cons l rest ih =>
    intro acc hacc
    simp only [sendLoop, weightSum]
    by_cases hlt : acc + 1 + Int.ofNat ((trimList l).length / 150) < 8
    · rw [if_pos hlt]
      have ihh := ih (acc + 1 + Int.ofNat ((trimList l).length / 150)) hlt
      constructor
      · rw [hasFallback_cons_privmsg, ihh.1]
        omega
      · intro hsum
        rw [List.map_cons]
        have : acc + 1 + Int.ofNat ((trimList l).length / 150) + weightSum rest < 8 := by
          omega
        rw [ihh.2 this]
    · rw [if_neg hlt]
      have h0 := weightSum_nonneg rest
      constructor
      · constructor
        · intro _
          omega
        · intro _
          cases ok <;> simp [hasFallback]
      · intro hsum
        exfalso
        omega

/-- C7 (amended): outbound replies are split on newlines dropping blank
lines, wrapped per line at the fixed column width, and stripped of
non-whitespace control characters; each wrapped line weighs 1 plus the floor
(not the ceiling) of its trimmed length over 150, and the uploaded-link
fallback replaces the tail exactly when the total weighted count reaches 8
(not only strictly above 8); while the total stays below 8 every line is sent
inline in full. -/
theorem C7_weighted_budget (wrap : List Char → List (List Char)) (ok : Bool)
    (msg : List Char) :
    (hasFallback (sendPossiblyLongMessage wrap ok msg) = true ↔
      8 ≤ weightSum (splitLongMessageForIrc wrap msg)) ∧
    (weightSum (splitLongMessageForIrc wrap msg) < 8 →
      sendPossiblyLongMessage wrap ok msg =
        (splitLongMessageForIrc wrap msg).map
          (fun l => SendAction.privmsg (trimList l))) := by
  have h := sendLoop_spec ok (splitLongMessageForIrc wrap msg) 0 (by omega)
  constructor
  · rw [sendPossiblyLongMessage, h.1, zero_add]
  · intro hw
    rw [sendPossiblyLongMessage]
    exact h.2 (by omega)

/-- C7 witness: the budget theorem applied to a two-character reply, sent
inline in full. -/
theorem C7_weighted_budget_witness :
    sendPossiblyLongMessage wrapId true (("hi").data) =
      [SendAction.privmsg (("hi").data)] := by
  have h := (C7_weighted_budget wrapId true (("hi").data)).2 (by decide)
  rw [h]
  decide

/-- C7 counterexample: five lines of one hundred characters weigh 10 under
the claim formula (ceiling), exceeding the threshold 8, yet the code sends
all five lines inline with no uploaded-link fallback, because it weighs them
by the floor (5 in total, below 8). -/
theorem C7_counterexample :
    8 < specWeightedCount (splitLongMessageForIrc wrapId fiveLines) ∧
    sendPossiblyLongMessage wrapId true fiveLines =
      List.replicate 5 (SendAction.privmsg (List.replicate 100 'a')) ∧
    hasFallback (sendPossiblyLongMessage wrapId true fiveLines) = false :=
  ⟨by decide, by decide, by decide⟩

/-- Mirror of the source test test_chat_instruction, first assertion: a plain
line is no directive. -/
theorem srcTest_plain_line_none :
    getChatInstruction (mkRat 1 1) (("hello world").data) = none := by decide

/-- Mirror of test_chat_instruction: the bare command word keeps the whole
remainder as the message. -/
theorem srcTest_chat_hello :
    (getChatInstruction (mkRat 1 1) (("!chat hello world").data)).map ChatInstruction.msg =
      some (("hello world").data) := by decide

/-- Mirror of test_chat_instruction: the colon agent-address prefix. -/
theorem srcTest_address_colon :
    (getChatInstruction (mkRat 1 1) (("Charbot9000: hello world").data)).map
      ChatInstruction.msg = some (("hello world").data) := by decide

/-- Mirror of test_chat_instruction: the comma agent-address prefix. -/
theorem srcTest_address_comma :
    (getChatInstruction (mkRat 1 1) (("Charbot9000, hello world").data)).map
      ChatInstruction.msg = some (("hello world").data) := by decide

/-- Mirror of test_chat_instruction: option block with temp only, empty
message, other options at their defaults. -/
theorem srcTest_temp_only :
    getChatInstruction (mkRat 7 5) (("!chat:temp=1").data) =
      some { msg := [], temp := mkRat 1 1, context := true, save := true,
             pastebin := false, tts := false } := by decide

/-- Mirror of test_chat_instruction: colon-separated option block with a
fractional temperature and context=no. -/
theorem srcTest_temp_context :
    getChatInstruction (mkRat 7 5) (("!chat:temp=0.5,context=no hello world").data) =
      some { msg := ("hello world").data, temp := mkRat 1 2, context := false,
             save := true, pastebin := false, tts := false } := by decide

/-- Mirror of test_chat_instruction: slash-separated option block with an
out-of-range temperature clamped to 2. -/
theorem srcTest_temp_clamped :
    getChatInstruction (mkRat 7 5) (("!chat/temp=55/save hello world").data) =
      some { msg := ("hello world").data, temp := mkRat 2 1, context := true,
             save := true, pastebin := false, tts := false } := by decide

/-- Mirror of test_chat_instruction: tts without a value defaults to true. -/
theorem srcTest_tts_bare :
    (getChatInstruction (mkRat 1 1) (("!chat --tts hello").data)).map
      ChatInstruction.tts = some true := by decide

/-- Mirror of test_chat_instruction: tts=yes. -/
theorem srcTest_tts_yes :
    (getChatInstruction (mkRat 1 1) (("!chat --tts=yes hello").data)).map
      ChatInstruction.tts = some true := by decide

/-- Mirror of test_chat_instruction: tts=false. -/
theorem srcTest_tts_false :
    (getChatInstruction (mkRat 1 1) (("!chat --tts=false hello").data)).map
      ChatInstruction.tts = some false := by decide

/-- Bare command word: empty message, every option at its default. -/
theorem srcTest_bare_chat :
    getChatInstruction (mkRat 1 1) (("!chat").data) =
      some { msg := [], temp := mkRat 1 1, context := true, save := true,
             pastebin := false, tts := false } := by decide

end Anna
